import Mathlib

/-!
Verification of the adaptive error-mitigation pipeline.

This file gives a shallow embedding of the decision core of the
repository `adaptive_error_mitigation`: the Python call-binding of the
orchestrator's strategy calls, the configuration module, the MEM / DD /
ZNE strategy selectors, the circuit feature extractor, the noise-hotspot
detection, the qubit-idling analyzer and the custom dynamical-decoupling
pulse inserter.  Machine numbers of the Python source are modelled by
`Nat`/`Q`/`Real` (float rounding to display precision is not modelled);
fallible Python code (raising exceptions) is modelled by `Except PyErr`.
-/

namespace AEM

/-- Python exception classes observed by the embedding. -/
inductive PyErr where
  | typeError
  | attributeError
  | zeroDivisionError
  deriving DecidableEq, Repr

/-- A circuit instruction: operation name, operand qubit indices and
duration (`src/.../circuit` collaborator surface: `inst.operation.name`,
`inst.qubits`, `inst.operation.duration`). -/
structure Inst where
  name : String
  qargs : List Nat
  duration : Nat
  deriving DecidableEq, Repr

/-! ## Python call binding

`select_mitigation_options` (src/mitigation/heuristics_selector.py,
lines 125-129) invokes `get_dd_options(crk_density, backend=backend,
isa_qc=isa_qc_scheduled)`.  `get_dd_options`
(src/mitigation/strategies/dd_strategy.py, lines 35-40) declares four
parameters without defaults: `max_decoher_err_prob`, `max_dd_qubit`,
`backend`, `isa_qc`.  We model CPython's binding of positional and
keyword arguments to a parameter list in which no parameter has a
default value: a missing required parameter raises `TypeError`. -/

/-- CPython argument binding for a parameter list without defaults:
`npos` positional arguments bind the first `npos` parameters; every
remaining parameter must be supplied by a keyword; a keyword that
re-binds a positional slot or names no parameter is also a `TypeError`. -/
def bindCall (params : List String) (npos : Nat) (kwargs : List String) :
    Except PyErr Unit :=
  if npos > params.length then .error .typeError
  else if kwargs.any (fun k => k ∈ params.take npos) then .error .typeError
  else if kwargs.any (fun k => k ∉ params) then .error .typeError
  else if (params.drop npos).all (fun p => p ∈ kwargs) then .ok ()
  else .error .typeError

/-- The parameter list of `get_dd_options`
(src/mitigation/strategies/dd_strategy.py lines 35-40). -/
def getDdOptionsParams : List String :=
  ["max_decoher_err_prob", "max_dd_qubit", "backend", "isa_qc"]

/-- The argument binding attempted by the `get_dd_options(...)` call in
`select_mitigation_options` (src/mitigation/heuristics_selector.py lines
125-129): one positional argument (`crk_density`) and the keywords
`backend` and `isa_qc`. -/
def selectorDdCallBinding : Except PyErr Unit :=
  bindCall getDdOptionsParams 1 ["backend", "isa_qc"]

/-! ## Configuration module (src/config.py)

`config.py` defines exactly the constants below.  Attribute access on
the module for any other name raises `AttributeError`. -/

def DEFAULT_SHOTS : Nat := 4096
def READOUT_ERROR_THRESHOLD : ℚ := 1 / 100
def NUM_RANDOMIZATIONS : Nat := 32
def DD_MIN_CD_THRESHOLD : ℚ := 7 / 100
def DD_MAX_CD_THRESHOLD : ℚ := 25 / 100
def ZNE_MIN_THRESHOLD : ℚ := 2 / 10
def ZNE_MAX_THRESHOLD : ℚ := 15 / 10

/-- The attribute names the module object of src/config.py carries
(besides the string/tuple constants `ZNE_NOISE_FACTORS`,
`ZNE_EXTRAPOLATOR`, `ZNE_AMPLIFIER`, which are also defined). -/
def configDefinedAttrs : List String :=
  ["DEFAULT_SHOTS", "READOUT_ERROR_THRESHOLD", "NUM_RANDOMIZATIONS",
   "DD_MIN_CD_THRESHOLD", "DD_MAX_CD_THRESHOLD",
   "ZNE_MIN_THRESHOLD", "ZNE_MAX_THRESHOLD",
   "ZNE_NOISE_FACTORS", "ZNE_EXTRAPOLATOR", "ZNE_AMPLIFIER"]

/-- `getattr` on the config module: succeeds exactly on the defined
attribute names, raises `AttributeError` otherwise. -/
def configGetAttr (name : String) : Except PyErr Unit :=
  if name ∈ configDefinedAttrs then .ok () else .error .attributeError

/-! ## MEM strategy selector (src/mitigation/strategies/mem_strategy.py)

`get_mem_options(max_readout_error, max_readout_qubit, total_shots)`:
`shots_value` defaults to `DEFAULT_SHOTS`; `shots_per_randomization =
math.ceil(shots_value / NUM_RANDOMIZATIONS)`; measurement mitigation is
enabled iff `max_readout_error >= READOUT_ERROR_THRESHOLD`, and in that
case the resilience fragment carries a `measure_noise_learning` block
whose `shots_per_randomization` field is set to `shots_value` (line 82
of the source) while the twirling fragment carries the ceiling value. -/

/-- `math.ceil(a / b)` for positive natural `b` (exact on the integer
inputs the selectors use). -/
def ceilDiv (a b : Nat) : Nat := (a + b - 1) / b

structure TwirlingFragment where
  enable_gates : Bool
  enable_measure : Bool
  num_randomizations : Nat
  shots_per_randomization : Nat
  deriving DecidableEq, Repr

structure MeasureNoiseLearning where
  num_randomizations : Nat
  shots_per_randomization : Nat
  deriving DecidableEq, Repr

structure ResilienceFragment where
  measure_mitigation : Bool
  measure_noise_learning : Option MeasureNoiseLearning
  deriving DecidableEq, Repr

structure MemResult where
  twirling : TwirlingFragment
  resilience_fragment : ResilienceFragment
  deriving DecidableEq, Repr

/-- Embedding of `get_mem_options`. -/
def getMemOptions (maxReadoutError : ℚ) (totalShots : Option Nat) :
    MemResult :=
  let shotsValue := totalShots.getD DEFAULT_SHOTS
  let shotsPerRandomization := ceilDiv shotsValue NUM_RANDOMIZATIONS
  let enableMeasure := maxReadoutError ≥ READOUT_ERROR_THRESHOLD
  let resilienceFragment :=
    if enableMeasure then
      { measure_mitigation := true
        measure_noise_learning :=
          some { num_randomizations := NUM_RANDOMIZATIONS
                 shots_per_randomization := shotsValue } }
    else
      { measure_mitigation := false, measure_noise_learning := none }
  { twirling :=
      { enable_gates := false
        enable_measure := decide enableMeasure
        num_randomizations := NUM_RANDOMIZATIONS
        shots_per_randomization := shotsPerRandomization }
    resilience_fragment := resilienceFragment }

/-! ## DD strategy selector (src/mitigation/strategies/dd_strategy.py)

`get_dd_options` first evaluates `config.DD_ERROR_THRESHOLD` (line 58).
src/config.py defines no such attribute (it defines the circuit-density
interval `DD_MIN_CD_THRESHOLD`/`DD_MAX_CD_THRESHOLD` instead), so the
module attribute lookup is modelled by a table that has no entry for
that name.  The remainder of the body (threshold comparison, qiskit
`PadDynamicalDecoupling` preprocessing as an abstract circuit rewrite,
layout restoration) is embedded for the hypothetical case where the
lookup succeeds. -/

/-- Numeric (float/int valued) attribute lookup on the config module:
exactly the numeric constants src/config.py defines. -/
def configRatAttr (name : String) : Option ℚ :=
  if name = "DEFAULT_SHOTS" then some (DEFAULT_SHOTS : ℚ)
  else if name = "READOUT_ERROR_THRESHOLD" then some READOUT_ERROR_THRESHOLD
  else if name = "NUM_RANDOMIZATIONS" then some (NUM_RANDOMIZATIONS : ℚ)
  else if name = "DD_MIN_CD_THRESHOLD" then some DD_MIN_CD_THRESHOLD
  else if name = "DD_MAX_CD_THRESHOLD" then some DD_MAX_CD_THRESHOLD
  else if name = "ZNE_MIN_THRESHOLD" then some ZNE_MIN_THRESHOLD
  else if name = "ZNE_MAX_THRESHOLD" then some ZNE_MAX_THRESHOLD
  else none

/-- Integer attribute lookup on the config module (the two integer
constants src/config.py defines). -/
def configNatAttr (name : String) : Option Nat :=
  if name = "DEFAULT_SHOTS" then some DEFAULT_SHOTS
  else if name = "NUM_RANDOMIZATIONS" then some NUM_RANDOMIZATIONS
  else none

/-- A circuit as the strategy layer sees it: an instruction list plus an
opaque layout token (`isa_qc._layout`). -/
structure Circuit where
  insts : List Inst
  layout : Option Nat
  deriving DecidableEq, Repr

structure DdResult where
  dd_enable : Bool
  dd_circuit : Option Circuit
  deriving DecidableEq, Repr

/-- Embedding of `get_dd_options`.  `preprocess` abstracts the external
qiskit `ALAPScheduleAnalysis` + `PadDynamicalDecoupling` pass manager of
`dynamical_decoupling_preprocess`.  Note that the returned `dd_options`
dictionary is initialised to `{"enable": False}` (line 64) and is never
updated afterwards, and that the very first statement of the body looks
up the undefined `config.DD_ERROR_THRESHOLD`. -/
def getDdOptions (maxDecoherErrProb : ℚ) (_maxDdQubit : Nat)
    (preprocess : Circuit → Circuit) (isaQc : Circuit) :
    Except PyErr DdResult :=
  match configRatAttr "DD_ERROR_THRESHOLD" with
  | none => .error .attributeError
  | some ddErrorThreshold =>
      let originalLayout := isaQc.layout
      if maxDecoherErrProb ≥ ddErrorThreshold then
        let ddCircuit := preprocess isaQc
        .ok { dd_enable := false
              dd_circuit := some { ddCircuit with layout := originalLayout } }
      else
        .ok { dd_enable := false, dd_circuit := none }

/-- Embedding of `select_mitigation_options`
(src/mitigation/heuristics_selector.py lines 37-192): after the MEM
fragment is collected, the DD step performs the `get_dd_options(...)`
call whose argument binding is `selectorDdCallBinding`; a binding error
propagates as the raised exception.  The continuation behind a
successful binding can never run (the binding omits `max_dd_qubit`), so
it is modelled as returning the inputs unchanged. -/
def selectMitigationOptions (maxReadoutError : ℚ) (shots : Option Nat)
    (isaQc : Circuit) : Except PyErr (MemResult × Circuit) :=
  let memFragment := getMemOptions maxReadoutError shots
  match selectorDdCallBinding with
  | .error e => .error e
  | .ok _ => .ok (memFragment, isaQc)

/-! ## Backend characterizer average + ZNE strategy

`get_average_metric` (src/analytics/backend_characterization.py lines
39-53) returns `0.0` for an empty tracked list and the arithmetic mean
otherwise.  `calculate_h_zne` (src/mitigation/strategies/zne_strategy.py
lines 15-38) computes `ons + qubits_used * (duration_ns / t2_avg)` with
no guard on `t2_avg`; Python float division by `0.0` raises
`ZeroDivisionError`.  `get_zne_options` (lines 41-145) evaluates
`config.TWIRLING_NUM_RANDOMIZATIONS` (line 61) before it ever calls
`calculate_h_zne` (line 75); that attribute is also undefined in
src/config.py. -/

/-- `get_average_metric`: mean of the tracked values, `0.0` when the
list is empty. -/
def getAverageMetric (values : List ℚ) : ℚ :=
  if values = [] then 0 else values.sum / values.length

/-- Python division: raises `ZeroDivisionError` on a zero denominator. -/
def pyDiv (a b : ℚ) : Except PyErr ℚ :=
  if b = 0 then .error .zeroDivisionError else .ok (a / b)

/-- Embedding of `calculate_h_zne`, with the circuit/backend probing
summarised by its inputs: the number of qubits used, the overall noise
sensitivity, the tracked T2 list (from which `avg_t2_time` is the
`get_average_metric` mean) and the estimated circuit duration. -/
def calculateHZne (qubitsUsed : Nat) (ons : ℚ) (t2List : List ℚ)
    (durationNs : ℚ) : Except PyErr ℚ :=
  let t2Avg := getAverageMetric t2List
  (pyDiv durationNs t2Avg).bind fun r => .ok (ons + (qubitsUsed : ℚ) * r)

structure ZneResult where
  resilience_level : Nat
  zne_mitigation : Bool
  twirl_enable_gates : Bool
  twirl_num_randomizations : Option Nat
  twirl_shots_per_randomization : Option Nat
  deriving DecidableEq, Repr

/-- Embedding of `get_zne_options`.  The config reads of lines 56-61
succeed for the five ZNE constants and fail on
`TWIRLING_NUM_RANDOMIZATIONS`, before `calculate_h_zne` is reached. -/
def getZneOptions (qubitsUsed : Nat) (ons : ℚ) (t2List : List ℚ)
    (durationNs : ℚ) (totalShots : Option Nat) : Except PyErr ZneResult :=
  match configNatAttr "TWIRLING_NUM_RANDOMIZATIONS" with
  | none => .error .attributeError
  | some twirlingNumRandomizations =>
      let shotsValue := totalShots.getD DEFAULT_SHOTS
      let shotsPerRandomization := ceilDiv shotsValue twirlingNumRandomizations
      (calculateHZne qubitsUsed ons t2List durationNs).bind fun hZne =>
        if ZNE_MIN_THRESHOLD ≤ hZne ∧ hZne ≤ ZNE_MAX_THRESHOLD then
          .ok { resilience_level := 2
                zne_mitigation := true
                twirl_enable_gates := true
                twirl_num_randomizations := some twirlingNumRandomizations
                twirl_shots_per_randomization := some shotsPerRandomization }
        else
          .ok { resilience_level := 0
                zne_mitigation := false
                twirl_enable_gates := false
                twirl_num_randomizations := none
                twirl_shots_per_randomization := none }

/-! ## Circuit feature extractor (src/analytics/circuit_features.py)

The counting loop of `extract_basic_features` (lines 38-57): an
instruction with exactly two operand qubits increments `num_2q_gates`
unconditionally; an instruction with exactly one operand qubit
increments `num_1q_gates` only when its name does not start with one of
the `EXCLUDE_OPS`; the 2Q gate density is `num_2q / (num_1q + num_2q)`,
`0.0` when both counts are zero. -/

def EXCLUDE_OPS : List String :=
  ["barrier", "measure", "reset", "delay", "snapshot", "store"]

/-- `str.startswith` on one candidate, via character lists. -/
def strStartsWith (p s : String) : Bool :=
  p.data.isPrefixOf s.data

/-- `op.name.startswith(EXCLUDE_OPS)`. -/
def excludedName (name : String) : Bool :=
  EXCLUDE_OPS.any (fun p => strStartsWith p name)

/-- An instruction the counting pass counts as a 1-qubit unitary. -/
def is1qCounted (i : Inst) : Bool :=
  i.qargs.length == 1 && !excludedName i.name

/-- An instruction the counting pass counts as a 2-qubit gate. -/
def is2qCounted (i : Inst) : Bool :=
  i.qargs.length == 2

/-- The single counting pass over `circuit.data`: returns
`(num_1q_gates, num_2q_gates)`. -/
def featureCounts (insts : List Inst) : Nat × Nat :=
  insts.foldl
    (fun acc i =>
      if i.qargs.length = 2 then (acc.1, acc.2 + 1)
      else if i.qargs.length = 1 ∧ excludedName i.name = false then
        (acc.1 + 1, acc.2)
      else acc)
    (0, 0)

/-- The reported `2q_gate_density`. -/
def twoQGateDensity (insts : List Inst) : ℚ :=
  let c := featureCounts insts
  if c.1 + c.2 > 0 then (c.2 : ℚ) / ((c.1 : ℚ) + (c.2 : ℚ)) else 0

/-! ## Noise hotspot detection (src/analytics/noise_sensitivity.py)

`_identify_noise_hotspots` (lines 165-207): with `np.mean` / `np.std`
(population standard deviation, `ddof=0`) computed separately over the
qubit scores and over the link scores, a resource is a hotspot iff its
score is `>=` its own population's `mean + 1 * std`; an empty score list
leaves that hotspot list empty (the comprehension ranges over an empty
dictionary).  Scores are real-valued, so hotspot membership is modelled
as a set comprehension. -/

/-- `np.mean` over a list of reals. -/
noncomputable def popMean (l : List ℝ) : ℝ := l.sum / l.length

/-- `np.std` with the default `ddof=0`: the population standard
deviation. -/
noncomputable def popStd (l : List ℝ) : ℝ :=
  Real.sqrt (((l.map fun x => (x - popMean l) ^ 2).sum) / l.length)

/-- The dynamic threshold `mean + 1 * std`; `0.0` when the score list is
empty (mirroring the `if qubit_scores:` guard). -/
noncomputable def hotspotThreshold (scores : List ℝ) : ℝ :=
  if scores = [] then 0 else popMean scores + 1 * popStd scores

/-- The hotspot qubits of a qubit-sensitivity association list: entries
whose score is `>=` the threshold of the qubit-score population. -/
def hotspotQubits (qubitSens : List (Nat × ℝ)) : Set Nat :=
  { q | ∃ s, (q, s) ∈ qubitSens ∧ s ≥ hotspotThreshold (qubitSens.map Prod.snd) }

/-- The hotspot links, thresholded against the link-score population
only. -/
def hotspotLinks (linkSens : List ((Nat × Nat) × ℝ)) : Set (Nat × Nat) :=
  { l | ∃ s, (l, s) ∈ linkSens ∧ s ≥ hotspotThreshold (linkSens.map Prod.snd) }

/-! ## Qubit idling analyzer (src/analytics/qubit_idling.py)

`analyze_qubit_idling` (lines 89-125): a dictionary fold over
`isa_qc_scheduled.data` adds every delay instruction's duration to each
of its operand qubits; a qubit is then processed only when it is used by
some instruction and `extract_t2_map_from_properties` gave it a positive
T2; its entry reports `t2_dt = t2_sec / dt_sec`, the accumulated delay,
and `1 - exp(-delay_dt / t2_dt)` (float display rounding to 6 digits is
not modelled). -/

/-- One step of the accumulation loop `for inst in data: for q in
inst.qubits: if name == "delay": acc[q] += duration`, on a total map. -/
def accumInst (acc : Nat → Nat) (i : Inst) : Nat → Nat := fun q =>
  if i.name = "delay" then acc q + i.qargs.count q * i.duration else acc q

/-- The delay accumulator dictionary after the whole pass (absent key =
`0`, matching `delay_accumulator.get(qidx, 0)`). -/
def delayAccum (insts : List Inst) : Nat → Nat :=
  insts.foldl accumInst (fun _ => 0)

/-- The specification-shaped total: the sum over all instructions of the
delay durations on qubit `q`. -/
def sumDelays (insts : List Inst) (q : Nat) : Nat :=
  (insts.map fun i =>
    if i.name = "delay" then i.qargs.count q * i.duration else 0).sum

/-- The qubits touched by any instruction (`used_qubit_idxs`). -/
def usedQubits (insts : List Inst) : List Nat :=
  insts.foldl (fun s i => s ++ i.qargs) []

/-- `extract_t2_map_from_properties`: qubit `q` gets a T2 entry iff the
property dictionary holds a positive `t2` for it (in seconds, kept
rational here since only ratios of it are used). -/
def t2MapFromProps (props : List (Nat × ℚ)) (q : Nat) : Option ℚ :=
  match props.find? (fun p => p.1 = q) with
  | some p => if p.2 > 0 then some p.2 else none
  | none => none

/-- One per-qubit record of the idling report. -/
structure IdleEntry where
  t2_dt : ℚ
  idle_dt : Nat
  decoher_err_prob : ℝ

/-- The idling analyzer's per-qubit computation: `none` when the qubit
is unused or lacks T2 calibration, otherwise the reported record. -/
noncomputable def analyzeQubitIdlingEntry (insts : List Inst)
    (props : List (Nat × ℚ)) (dt : ℚ) (q : Nat) : Option IdleEntry :=
  if q ∈ usedQubits insts then
    match t2MapFromProps props q with
    | none => none
    | some t2Sec =>
        let t2Dt : ℚ := t2Sec / dt
        let delayDt : Nat := delayAccum insts q
        some { t2_dt := t2Dt
               idle_dt := delayDt
               decoher_err_prob :=
                 1 - Real.exp (-(delayDt : ℝ) / (t2Dt : ℝ)) }
  else none

/-! ## DD pulse inserter (src/notebooks/DD/dd_insert_cust.py)

### The rewrite pass (`DynamicalDecoupler.run`, lines 154-191)

The pass walks the DAG's op nodes in order.  A node with `len(qargs) !=
1` is skipped outright — in particular a multi-qubit gate neither
becomes a candidate nor adds its qubits to `qubits_initialized`.  A
1-qubit non-delay node initializes its qubit.  A 1-qubit delay is a
candidate idle window exactly when its qubit is already initialized
(the `t2_map` / pulse-count checks that follow decide whether the
candidate is actually rewritten). -/

/-- Positions (indices into the instruction list, offset by `start`) of
the candidate idle windows, threading the `qubits_initialized` set. -/
def runCandidatesAux : List Inst → Nat → List Nat → List Nat
  | [], _, _ => []
  | i :: rest, idx, initialized =>
    match i.qargs with
    | [q] =>
        if i.name ≠ "delay" then
          runCandidatesAux rest (idx + 1) (q :: initialized)
        else if q ∈ initialized then
          idx :: runCandidatesAux rest (idx + 1) initialized
        else
          runCandidatesAux rest (idx + 1) initialized
    | _ => runCandidatesAux rest (idx + 1) initialized

/-- The candidate idle-window positions of the whole pass. -/
def runCandidates (insts : List Inst) : List Nat :=
  runCandidatesAux insts 0 []

/-- Modelled from the spec (for comparison with `runCandidates`): the
claim's candidacy condition — the delay at position `idx` is a candidate
iff some non-delay 1-qubit *or multi-qubit* operation touching its qubit
occurs earlier in the circuit (i.e. in the prefix before `idx`). -/
def specCandidate (insts : List Inst) (idx : Nat) : Prop :=
  ∃ i q, insts[idx]? = some i ∧ i.name = "delay" ∧ i.qargs = [q] ∧
    ∃ jI ∈ insts.take idx, jI.name ≠ "delay" ∧ q ∈ jI.qargs

/-- The candidacy condition the code implements: the earlier
initializing operation must be a non-delay *1-qubit* operation on the
same qubit. -/
def codeCandidate (insts : List Inst) (idx : Nat) : Prop :=
  ∃ i q, insts[idx]? = some i ∧ i.name = "delay" ∧ i.qargs = [q] ∧
    ∃ jI ∈ insts.take idx, jI.name ≠ "delay" ∧ jI.qargs = [q]

/-! ### Pulse-count search (`_calculate_dd_pulses`, lines 86-124)

With `D_min_delay = 1`, the loop's three stop conditions at a candidate
count `m` are: `m*d + (3m+1) > T_idle` (integer arithmetic),
`m*e >= 2*(1 - exp(-T_idle/((4m+1)*T2_dt)))`, and `m > 2`.  Starting
from `n = 0`, candidates `n + L` are tested (`L` the base sequence
length) and accepted while no condition fires. -/

/-- The disjunction of the three stop conditions. -/
noncomputable def ddStop (tIdle : Nat) (t2Dt e : ℝ) (d : Nat) (m : Nat) :
    Prop :=
  m * d + (3 * m + 1) > tIdle ∨
  (m : ℝ) * e ≥ 2 * (1 - Real.exp (-(tIdle : ℝ) / ((4 * (m : ℝ) + 1) * t2Dt))) ∨
  m > 2

/-- The `while True` search loop, with explicit fuel.  The loop body
tests the next candidate `n + L` and either keeps the previous `n`
(stop) or accepts the candidate. -/
def ddLoop (stop : Nat → Prop) [DecidablePred stop] (L : Nat) :
    Nat → Nat → Nat
  | 0, n => n
  | fuel + 1, n => if stop (n + L) then n else ddLoop stop L fuel (n + L)

/-- The stop conditions compare real numbers; the Python code decides
them on floats, modelled by classical decidability. -/
noncomputable instance ddStopDec (tIdle : Nat) (t2Dt e : ℝ) (d : Nat) :
    DecidablePred (ddStop tIdle t2Dt e d) :=
  fun _ => Classical.propDecidable _

open Classical in
/-- `_calculate_dd_pulses`: `none` models Python's `None` return (idle
window left unmodified).  The decoherence-exposure gate uses the
configured minimum `thr` (`t2_threshold_ratio`); `ddProps` carries the
native pi-pulse duration (already converted to dt units) and error, or
`none` when the backend lacks the calibration entry.  Fuel `4` is
exhaustive for the loop: the hard cap `m > 2` fires at the latest at the
fourth candidate for any positive sequence length (proved below). -/
noncomputable def calculateDdPulses (tIdle : Nat) (t2Dt thr : ℝ)
    (ddProps : Option (Nat × ℝ)) (L : Nat) : Option Nat :=
  if 1 - Real.exp (-(tIdle : ℝ) / t2Dt) < thr then none
  else
    match ddProps with
    | none => none
    | some (d, e) =>
        let nPi := ddLoop (ddStop tIdle t2Dt e d) L 4 0
        if nPi > 0 then some nPi else none

/-! ### Replacement circuit (`_create_replacement_circuit`, lines
126-152)

For an accepted count `n`: `tau_total = T_idle - n*d`; `tau = tau_total
// n`; `half_tau = tau // 2`; `remainder = tau_total % n`, split as
`initial_slack = remainder // 2` and `final_slack = remainder -
initial_slack`.  The emitted sequence is a first delay of `half_tau +
initial_slack`, then the `n` pulses separated by `n - 1` delays of
`tau`, then a last delay of `half_tau + final_slack`. -/

/-- The durations of the sub-delays the replacement circuit emits. -/
def replacementDelays (nPi tIdle d : Nat) : List Nat :=
  let tauTotal := tIdle - nPi * d
  let tau := tauTotal / nPi
  let halfTau := tau / 2
  let remainder := tauTotal % nPi
  let initialSlack := remainder / 2
  let finalSlack := remainder - initialSlack
  [halfTau + initialSlack] ++ List.replicate (nPi - 1) tau ++
    [halfTau + finalSlack]

/-- Total duration of the replacement: all sub-delays plus the `n`
pulses of duration `d`. -/
def replacementDuration (nPi tIdle d : Nat) : Nat :=
  (replacementDelays nPi tIdle d).sum + nPi * d

/-! # Theorems -/

/-- C1: the claim asserts that `select_mitigation_options` terminates
normally on every structurally valid input and that its internal
`get_dd_options` call supplies every required argument.  The code does
not: the call at src/mitigation/heuristics_selector.py lines 125-129
passes one positional argument and the keywords `backend`/`isa_qc`,
leaving the required parameter `max_dd_qubit` unbound, so CPython raises
`TypeError` on every invocation and the function never returns. -/
theorem selectMitigationOptions_raises_typeError :
    (∀ (e : ℚ) (s : Option Nat) (c : Circuit),
        selectMitigationOptions e s c = .error .typeError) ∧
    selectorDdCallBinding = .error .typeError := by
  have h : selectorDdCallBinding = .error .typeError := rfl
  exact ⟨fun e s c => by simp [selectMitigationOptions, h], h⟩

/-- C8: the claim asserts that `get_dd_options` decides DD by comparing
`max_decoherence_error_probability` against `DD_ERROR_THRESHOLD`.  The
first statement of its body reads `config.DD_ERROR_THRESHOLD`
(src/mitigation/strategies/dd_strategy.py line 58), an attribute
src/config.py never defines, so every call raises `AttributeError`
before any threshold comparison, pulse insertion or layout handling. -/
theorem getDdOptions_raises_attributeError :
    ∀ (p : ℚ) (q : Nat) (pre : Circuit → Circuit) (c : Circuit),
      getDdOptions p q pre c = .error .attributeError := by
  intro p q pre c
  rfl

/-- C10 counterexample: at the concrete input `qubits_used = 4`,
`overall_noise_sensitivity = 0`, empty tracked-T2 list (a backend with
no T2 calibration), duration `100`, default shots, `get_zne_options`
raises `AttributeError` (undefined `config.TWIRLING_NUM_RANDOMIZATIONS`,
line 61) — not the division-by-zero error the claim asserts it
propagates. -/
theorem getZneOptions_counterexample :
    getZneOptions 4 0 [] 100 none = .error .attributeError ∧
    PyErr.attributeError ≠ PyErr.zeroDivisionError :=
  ⟨rfl, by decide⟩

/-- C10 amended: for a backend lacking T2 calibration the characterizer
reports average T2 exactly `0.0` and `calculate_h_zne` raises
`ZeroDivisionError` on its unguarded division; but `get_zne_options`
(and hence the orchestrator) fails earlier with `AttributeError` on the
undefined `config.TWIRLING_NUM_RANDOMIZATIONS`, before the division is
ever reached. -/
theorem zne_division_amended :
    (∀ (qu : Nat) (ons dur : ℚ),
        calculateHZne qu ons [] dur = .error .zeroDivisionError) ∧
    (∀ (qu : Nat) (ons dur : ℚ) (shots : Option Nat),
        getZneOptions qu ons [] dur shots = .error .attributeError) ∧
    getAverageMetric [] = 0 := by
  exact ⟨fun qu ons dur => rfl, fun qu ons dur shots => rfl, rfl⟩

/-- C7 counterexample: with `max_readout_error = 0.02 >= 0.01` and
`total_shots = 4096`, MEM is enabled and the emitted
`measure_noise_learning.shots_per_randomization` is the raw `4096`
(src/mitigation/strategies/mem_strategy.py line 82), not
`ceil(4096 / 32) = 128` as the claim asserts for every
shots-per-randomization parameter. -/
theorem getMemOptions_counterexample :
    (getMemOptions (2 / 100) (some 4096)).resilience_fragment.measure_noise_learning =
      some { num_randomizations := 32, shots_per_randomization := 4096 } ∧
    ceilDiv 4096 NUM_RANDOMIZATIONS = 128 ∧ (4096 : Nat) ≠ 128 := by
  refine ⟨?_, by decide, by decide⟩
  norm_num [getMemOptions, READOUT_ERROR_THRESHOLD, NUM_RANDOMIZATIONS]

/-- C7 amended: MEM is enabled iff `max_readout_error >=
READOUT_ERROR_THRESHOLD` (inclusive) and the *twirling*
shots-per-randomization is exactly `ceil(shots_value /
NUM_RANDOMIZATIONS)` (characterised as the least `k` with `shots_value
<= 32 * k`); but the `measure_noise_learning` fragment emitted when MEM
is enabled carries the raw `shots_value`, not the ceiling. -/
theorem getMemOptions_amended :
    ∀ (e : ℚ) (shots : Option Nat),
      ((getMemOptions e shots).resilience_fragment.measure_mitigation = true ↔
        READOUT_ERROR_THRESHOLD ≤ e) ∧
      (shots.getD DEFAULT_SHOTS ≤
          NUM_RANDOMIZATIONS * (getMemOptions e shots).twirling.shots_per_randomization ∧
        ∀ k, shots.getD DEFAULT_SHOTS ≤ NUM_RANDOMIZATIONS * k →
          (getMemOptions e shots).twirling.shots_per_randomization ≤ k) ∧
      (READOUT_ERROR_THRESHOLD ≤ e →
        (getMemOptions e shots).resilience_fragment.measure_noise_learning =
          some { num_randomizations := NUM_RANDOMIZATIONS
                 shots_per_randomization := shots.getD DEFAULT_SHOTS }) ∧
      (e < READOUT_ERROR_THRESHOLD →
        (getMemOptions e shots).resilience_fragment.measure_noise_learning = none) := by
  intro e shots
  by_cases h : READOUT_ERROR_THRESHOLD ≤ e
  · refine ⟨by simp [getMemOptions, ge_iff_le, h], ⟨?_, ?_⟩, fun _ => ?_, fun hlt => ?_⟩
    · simp only [getMemOptions, ceilDiv, NUM_RANDOMIZATIONS]
      omega
    · intro k hk
      simp only [getMemOptions, ceilDiv, NUM_RANDOMIZATIONS] at hk ⊢
      omega
    · simp [getMemOptions, ge_iff_le, h]
    · exact absurd h (not_le.mpr hlt)
  · refine ⟨by simp [getMemOptions, ge_iff_le, h], ⟨?_, ?_⟩, fun hle => absurd hle h, fun _ => ?_⟩
    · simp only [getMemOptions, ceilDiv, NUM_RANDOMIZATIONS]
      omega
    · intro k hk
      simp only [getMemOptions, ceilDiv, NUM_RANDOMIZATIONS] at hk ⊢
      omega
    · simp [getMemOptions, ge_iff_le, h]

/-- Witness for C7's amended theorem at `max_readout_error = 0.02`,
`total_shots = 4096`. -/
theorem getMemOptions_amended_witness :
    READOUT_ERROR_THRESHOLD ≤ (2 / 100 : ℚ) ∧
    (getMemOptions (2 / 100) (some 4096)).resilience_fragment.measure_noise_learning =
      some { num_randomizations := NUM_RANDOMIZATIONS
             shots_per_randomization := (some 4096).getD DEFAULT_SHOTS } :=
  ⟨by norm_num [READOUT_ERROR_THRESHOLD],
   (getMemOptions_amended (2 / 100) (some 4096)).2.2.1
     (by norm_num [READOUT_ERROR_THRESHOLD])⟩

/-- The counting fold equals the two filters, for any starting
accumulator. -/
theorem featureCounts_go (l : List Inst) :
    ∀ a b : Nat,
      l.foldl
        (fun acc i =>
          if i.qargs.length = 2 then (acc.1, acc.2 + 1)
          else if i.qargs.length = 1 ∧ excludedName i.name = false then
            (acc.1 + 1, acc.2)
          else acc)
        (a, b) =
      (a + (l.filter is1qCounted).length, b + (l.filter is2qCounted).length) := by
  induction l with
  | nil => intro a b; simp
  | cons i rest ih =>
    intro a b
    by_cases h2 : i.qargs.length = 2
    · have h2b : is2qCounted i = true := by simp [is2qCounted, h2]
      have h1b : is1qCounted i = false := by simp [is1qCounted, h2]
      simp [List.filter_cons, h2b, h1b, if_pos h2, ih]
      omega
    · by_cases h1 : i.qargs.length = 1 ∧ excludedName i.name = false
      · have h1b : is1qCounted i = true := by
          simp [is1qCounted, h1.1, h1.2]
        have h2b : is2qCounted i = false := by simp [is2qCounted, h2]
        simp [List.filter_cons, h1b, h2b, if_neg h2, if_pos h1, ih]
        omega
      · have h1b : is1qCounted i = false := by
          rcases Decidable.not_and_iff_or_not.mp h1 with h | h
          · simp [is1qCounted, h]
          · have : excludedName i.name = true := by
              cases hx : excludedName i.name
              · exact absurd hx h
              · rfl
            simp [is1qCounted, this]
        have h2b : is2qCounted i = false := by simp [is2qCounted, h2]
        simp [List.filter_cons, h1b, h2b, if_neg h2, if_neg h1, ih]

/-- C9 counterexample: a barrier spanning exactly two qubits is counted
by the pass as a 2-qubit gate (the two-operand branch of the loop does
not consult the exclusion list), so `num_2q_gates = 1` where the claim
requires `0`. -/
theorem featureCounts_counterexample :
    (featureCounts [{ name := "barrier", qargs := [0, 1], duration := 0 }]).2 = 1 ∧
    excludedName "barrier" = true ∧ (1 : Nat) ≠ 0 := by
  refine ⟨rfl, by decide, by decide⟩

/-- C9 amended: the exclusion by name (prefix match against
barrier/measure/reset/delay/snapshot/store) applies only to the 1-qubit
count; every instruction with exactly two operand qubits is counted as a
2-qubit gate regardless of its name; the 2-qubit gate density is
`num_2q / (num_1q + num_2q)` and exactly `0` when both counts are
zero. -/
theorem featureCounts_amended :
    ∀ insts : List Inst,
      (featureCounts insts).1 = (insts.filter is1qCounted).length ∧
      (featureCounts insts).2 = (insts.filter is2qCounted).length ∧
      ((featureCounts insts).1 + (featureCounts insts).2 = 0 →
        twoQGateDensity insts = 0) ∧
      (0 < (featureCounts insts).1 + (featureCounts insts).2 →
        twoQGateDensity insts *
            (((featureCounts insts).1 : ℚ) + ((featureCounts insts).2 : ℚ)) =
          ((featureCounts insts).2 : ℚ)) := by
  intro insts
  have hgo := featureCounts_go insts 0 0
  have hfc : featureCounts insts =
      ((insts.filter is1qCounted).length, (insts.filter is2qCounted).length) := by
    simpa [featureCounts] using hgo
  refine ⟨by rw [hfc], by rw [hfc], fun hz => ?_, fun hp => ?_⟩
  · simp [twoQGateDensity, hz]
  · have hne : (((featureCounts insts).1 : ℚ) + ((featureCounts insts).2 : ℚ)) ≠ 0 := by
      have : (0 : ℚ) < ((featureCounts insts).1 : ℚ) + ((featureCounts insts).2 : ℚ) := by
        exact_mod_cast hp
      linarith
    simp only [twoQGateDensity, if_pos hp]
    field_simp

/-- Witness for C9's amended theorem on a circuit with one counted
1-qubit gate and one counted 2-qubit gate. -/
theorem featureCounts_amended_witness :
    0 < (featureCounts [{ name := "x", qargs := [0], duration := 0 },
          { name := "cx", qargs := [0, 1], duration := 0 }]).1 +
        (featureCounts [{ name := "x", qargs := [0], duration := 0 },
          { name := "cx", qargs := [0, 1], duration := 0 }]).2 ∧
    twoQGateDensity [{ name := "x", qargs := [0], duration := 0 },
          { name := "cx", qargs := [0, 1], duration := 0 }] *
        (((featureCounts [{ name := "x", qargs := [0], duration := 0 },
          { name := "cx", qargs := [0, 1], duration := 0 }]).1 : ℚ) +
         ((featureCounts [{ name := "x", qargs := [0], duration := 0 },
          { name := "cx", qargs := [0, 1], duration := 0 }]).2 : ℚ)) =
      ((featureCounts [{ name := "x", qargs := [0], duration := 0 },
          { name := "cx", qargs := [0, 1], duration := 0 }]).2 : ℚ) :=
  ⟨by decide,
   (featureCounts_amended [{ name := "x", qargs := [0], duration := 0 },
      { name := "cx", qargs := [0, 1], duration := 0 }]).2.2.2 (by decide)⟩

/-- C2: for an accepted pulse count `n > 0` (acceptance gives
`n*d + (3n+1) <= T_idle`), the sub-delays plus the `n` pulses reproduce
the original window duration up to at most one time unit (the unit that
floor-halving an odd `tau` drops), with the division remainder assigned
to the first and last sub-delay. -/
theorem replacementDuration_preserves (n T d : Nat) (hn : 0 < n)
    (hacc : n * d + (3 * n + 1) ≤ T) :
    replacementDuration n T d ≤ T ∧ T ≤ replacementDuration n T d + 1 := by
  obtain ⟨m, rfl⟩ : ∃ m, n = m + 1 := ⟨n - 1, by omega⟩
  simp only [replacementDuration, replacementDelays, List.sum_append,
    List.sum_cons, List.sum_nil, List.sum_replicate, smul_eq_mul,
    Nat.add_sub_cancel]
  set B := (m + 1) * d with hB
  set tt := T - B with htt
  set tau := tt / (m + 1) with htau
  set rem := tt % (m + 1) with hrem
  have hdm : (m + 1) * tau + rem = tt := Nat.div_add_mod tt (m + 1)
  have hmul : (m + 1) * tau = m * tau + tau := by ring
  rw [hmul] at hdm
  set A := m * tau with hA
  omega

/-- Witness for C2 at `n = 2`, `T_idle = 100`, `d = 10` (the even-`tau`
case, where the duration is reproduced exactly). -/
theorem replacementDuration_preserves_witness :
    (0 < 2 ∧ 2 * 10 + (3 * 2 + 1) ≤ 100) ∧
    replacementDuration 2 100 10 ≤ 100 ∧ 100 ≤ replacementDuration 2 100 10 + 1 :=
  ⟨⟨by decide, by decide⟩, replacementDuration_preserves 2 100 10 (by decide) (by decide)⟩

/-- C5: hotspot detection thresholds each population at its own
`mean + 1 * population-std` with an inclusive boundary and tolerates
empty populations.  Conjuncts: (1) qubit scores `[1,1,1,10]` yield
exactly the qubit scoring 10 (threshold `3.25 + sqrt(15.1875)`);
(2)-(3) that threshold lies in `(7.14, 7.15)`, the population value —
a Bessel-corrected std would give `7.75`; (4) a score exactly at the
threshold is a hotspot (scores `[5,5]`, threshold `5`, both marked);
(5)-(6) empty populations give empty hotspot sets. -/
theorem hotspot_detection_spec :
    hotspotQubits [(0, 1), (1, 1), (2, 1), (3, 10)] = {3} ∧
    (357 / 50 : ℝ) < hotspotThreshold [(1 : ℝ), 1, 1, 10] ∧
    hotspotThreshold [(1 : ℝ), 1, 1, 10] < 143 / 20 ∧
    hotspotQubits [(0, 5), (1, 5)] = {0, 1} ∧
    hotspotQubits [] = (∅ : Set Nat) ∧
    hotspotLinks [] = (∅ : Set (Nat × Nat)) := by
  have hmean : popMean [(1 : ℝ), 1, 1, 10] = 13 / 4 := by
    simp only [popMean, List.sum_cons, List.sum_nil, List.length_cons,
      List.length_nil]
    norm_num
  have hstd : popStd [(1 : ℝ), 1, 1, 10] = Real.sqrt (243 / 16) := by
    simp only [popStd, hmean, List.map_cons, List.map_nil, List.sum_cons,
      List.sum_nil, List.length_cons, List.length_nil]
    congr 1
    norm_num
  have hthr : hotspotThreshold [(1 : ℝ), 1, 1, 10] = 13 / 4 + Real.sqrt (243 / 16) := by
    unfold hotspotThreshold
    rw [if_neg (by simp), hmean, hstd, one_mul]
  have hub : Real.sqrt (243 / 16) ≤ 27 / 4 :=
    Real.sqrt_le_iff.mpr ⟨by norm_num, by norm_num⟩
  have hlt : Real.sqrt (243 / 16) < 39 / 10 :=
    (Real.sqrt_lt' (by norm_num)).mpr (by norm_num)
  have hgt : (389 / 100 : ℝ) < Real.sqrt (243 / 16) :=
    (Real.lt_sqrt (by norm_num)).mpr (by norm_num)
  have hmap : List.map Prod.snd [((0 : Nat), (1 : ℝ)), (1, 1), (2, 1), (3, 10)] =
      [(1 : ℝ), 1, 1, 10] := rfl
  have hmap2 : List.map Prod.snd [((0 : Nat), (5 : ℝ)), (1, 5)] = [(5 : ℝ), 5] := rfl
  have hthr2 : hotspotThreshold [(5 : ℝ), 5] = 5 := by
    have h5 : popMean [(5 : ℝ), 5] = 5 := by
      simp only [popMean, List.sum_cons, List.sum_nil, List.length_cons,
        List.length_nil]
      norm_num
    have hs : popStd [(5 : ℝ), 5] = 0 := by
      simp only [popStd, h5, List.map_cons, List.map_nil, List.sum_cons,
        List.sum_nil, List.length_cons, List.length_nil]
      norm_num [Real.sqrt_zero]
    unfold hotspotThreshold
    rw [if_neg (by simp), h5, hs]
    norm_num
  refine ⟨?_, by rw [hthr]; linarith, by rw [hthr]; linarith, ?_, ?_, ?_⟩
  · ext q
    simp only [hotspotQubits, Set.mem_setOf_eq, List.mem_cons, List.not_mem_nil,
      or_false, Prod.mk.injEq, Set.mem_singleton_iff, hmap, hthr]
    constructor
    · rintro ⟨s, (⟨hq, hs⟩ | ⟨hq, hs⟩ | ⟨hq, hs⟩ | ⟨hq, hs⟩), hge⟩ <;>
        subst hq <;> subst hs
      · exfalso
        have := Real.sqrt_nonneg (243 / 16 : ℝ)
        linarith
      · exfalso
        have := Real.sqrt_nonneg (243 / 16 : ℝ)
        linarith
      · exfalso
        have := Real.sqrt_nonneg (243 / 16 : ℝ)
        linarith
      · rfl
    · rintro rfl
      exact ⟨10, by simp, by linarith⟩
  · ext q
    simp only [hotspotQubits, Set.mem_setOf_eq, List.mem_cons, List.not_mem_nil,
      or_false, Prod.mk.injEq, Set.mem_insert_iff, Set.mem_singleton_iff,
      hmap2, hthr2]
    constructor
    · rintro ⟨s, (⟨hq, hs⟩ | ⟨hq, hs⟩), _⟩
      · exact Or.inl hq
      · exact Or.inr hq
    · rintro (rfl | rfl)
      · exact ⟨5, Or.inl ⟨rfl, rfl⟩, le_refl 5⟩
      · exact ⟨5, Or.inr ⟨rfl, rfl⟩, le_refl 5⟩
  · ext q
    simp [hotspotQubits]
  · ext l
    simp [hotspotLinks]

/-- The dictionary fold of the idling analyzer accumulates the *sum* of
the delay durations on a qubit. -/
theorem delayAccum_eq_sumDelays (insts : List Inst) (q : Nat) :
    delayAccum insts q = sumDelays insts q := by
  suffices h : ∀ acc : Nat → Nat,
      insts.foldl accumInst acc q = acc q + sumDelays insts q by
    simpa [delayAccum] using h (fun _ => 0)
  induction insts with
  | nil => intro acc; simp [sumDelays]
  | cons i rest ih =>
    intro acc
    rw [List.foldl_cons, ih]
    simp only [sumDelays, List.map_cons, List.sum_cons, accumInst]
    by_cases hd : i.name = "delay"
    · simp [hd, sumDelays]
      omega
    · simp [hd, sumDelays]

/-- C6: a processed qubit's entry reports the *sum* of all delay
durations on it, T2 converted to hardware units (`t2_sec / dt`), and
decoherence probability `1 - exp(-idle / t2_dt)`; a qubit without a T2
entry is excluded from the report entirely. -/
theorem analyzeQubitIdling_spec :
    ∀ (insts : List Inst) (props : List (Nat × ℚ)) (dt : ℚ) (q : Nat) (t2 : ℚ),
      (q ∈ usedQubits insts → t2MapFromProps props q = some t2 →
        analyzeQubitIdlingEntry insts props dt q =
          some { t2_dt := t2 / dt
                 idle_dt := sumDelays insts q
                 decoher_err_prob :=
                   1 - Real.exp (-(sumDelays insts q : ℝ) / ((t2 / dt : ℚ) : ℝ)) }) ∧
      (t2MapFromProps props q = none →
        analyzeQubitIdlingEntry insts props dt q = none) := by
  intro insts props dt q t2
  constructor
  · intro hq ht2
    simp [analyzeQubitIdlingEntry, hq, ht2, delayAccum_eq_sumDelays]
  · intro hnone
    by_cases hq : q ∈ usedQubits insts
    · simp [analyzeQubitIdlingEntry, hq, hnone]
    · simp [analyzeQubitIdlingEntry, hq]

/-- Witness for C6: one qubit, T2 of 100 time units (dt = 1),
accumulated idle `30 + 20 = 50` across two disjoint windows, giving
probability `1 - exp(-0.5)`. -/
theorem analyzeQubitIdling_spec_witness :
    0 ∈ usedQubits [⟨"x", [0], 10⟩, ⟨"delay", [0], 30⟩, ⟨"delay", [0], 20⟩] ∧
    t2MapFromProps [(0, 100)] 0 = some 100 ∧
    analyzeQubitIdlingEntry [⟨"x", [0], 10⟩, ⟨"delay", [0], 30⟩, ⟨"delay", [0], 20⟩]
        [(0, 100)] 1 0 =
      some { t2_dt := 100 / 1
             idle_dt := sumDelays [⟨"x", [0], 10⟩, ⟨"delay", [0], 30⟩, ⟨"delay", [0], 20⟩] 0
             decoher_err_prob :=
               1 - Real.exp
                 (-(sumDelays [⟨"x", [0], 10⟩, ⟨"delay", [0], 30⟩, ⟨"delay", [0], 20⟩] 0 : ℝ) /
                   ((100 / 1 : ℚ) : ℝ)) } ∧
    sumDelays [⟨"x", [0], 10⟩, ⟨"delay", [0], 30⟩, ⟨"delay", [0], 20⟩] 0 = 50 ∧
    (-(50 : ℝ) / ((100 / 1 : ℚ) : ℝ)) = -(1 / 2) :=
  ⟨by decide, by decide,
   ((analyzeQubitIdling_spec [⟨"x", [0], 10⟩, ⟨"delay", [0], 30⟩, ⟨"delay", [0], 20⟩]
      [(0, 100)] 1 0 100).1 (by decide) (by decide)),
   by decide, by norm_num⟩

/-- Characterization of the rewrite pass's candidate positions, for an
arbitrary starting index and initialized set: position `start + m` is
recorded iff instruction `m` is a 1-qubit delay whose qubit either was
already initialized or gets initialized by an earlier non-delay 1-qubit
instruction of the list. -/
theorem runCandidatesAux_mem (l : List Inst) :
    ∀ (start : Nat) (init : List Nat) (k : Nat),
      k ∈ runCandidatesAux l start init ↔
      ∃ m i q, k = start + m ∧ l[m]? = some i ∧ i.name = "delay" ∧
        i.qargs = [q] ∧
        (q ∈ init ∨ ∃ jI ∈ l.take m, jI.name ≠ "delay" ∧ jI.qargs = [q]) := by
  induction l with
  | nil =>
    intro start init k
    simp [runCandidatesAux]
  | cons i rest ih =>
    intro start init k
    rcases hargs : i.qargs with _ | ⟨q0, _ | ⟨q1, qs⟩⟩
    · -- zero operands: the node is skipped
      have hred : runCandidatesAux (i :: rest) start init =
          runCandidatesAux rest (start + 1) init := by
        simp [runCandidatesAux, hargs]
      rw [hred, ih]
      constructor
      · rintro ⟨m, i', q', rfl, hget, hname, hq, hcond⟩
        refine ⟨m + 1, i', q', by omega, by simpa using hget, hname, hq, ?_⟩
        rcases hcond with h | ⟨jI, hjmem, hj1, hj2⟩
        · exact Or.inl h
        · exact Or.inr ⟨jI, by simp [List.take_succ_cons, hjmem], hj1, hj2⟩
      · rintro ⟨m, i', q', rfl, hget, hname, hq, hcond⟩
        rcases m with _ | m
        · simp only [List.getElem?_cons_zero, Option.some.injEq] at hget
          subst hget
          rw [hargs] at hq
          simp at hq
        · refine ⟨m, i', q', by omega, by simpa using hget, hname, hq, ?_⟩
          rcases hcond with h | ⟨jI, hjmem, hj1, hj2⟩
          · exact Or.inl h
          · simp only [List.take_succ_cons, List.mem_cons] at hjmem
            rcases hjmem with rfl | hjmem
            · rw [hargs] at hj2
              simp at hj2
            · exact Or.inr ⟨jI, hjmem, hj1, hj2⟩
    · -- exactly one operand
      by_cases hnd : i.name = "delay"
      · by_cases hinit : q0 ∈ init
        · -- delay on an initialized qubit: recorded as a candidate
          have hred : runCandidatesAux (i :: rest) start init =
              start :: runCandidatesAux rest (start + 1) init := by
            simp [runCandidatesAux, hargs, hnd, hinit]
          rw [hred]
          simp only [List.mem_cons]
          rw [ih]
          constructor
          · rintro (rfl | ⟨m, i', q', rfl, hget, hname, hq, hcond⟩)
            · exact ⟨0, i, q0, by omega, by simp, hnd, hargs, Or.inl hinit⟩
            · refine ⟨m + 1, i', q', by omega, by simpa using hget, hname, hq, ?_⟩
              rcases hcond with h | ⟨jI, hjmem, hj1, hj2⟩
              · exact Or.inl h
              · exact Or.inr ⟨jI, by simp [List.take_succ_cons, hjmem], hj1, hj2⟩
          · rintro ⟨m, i', q', rfl, hget, hname, hq, hcond⟩
            rcases m with _ | m
            · left
              omega
            · right
              refine ⟨m, i', q', by omega, by simpa using hget, hname, hq, ?_⟩
              rcases hcond with h | ⟨jI, hjmem, hj1, hj2⟩
              · exact Or.inl h
              · simp only [List.take_succ_cons, List.mem_cons] at hjmem
                rcases hjmem with rfl | hjmem
                · exact absurd hnd hj1
                · exact Or.inr ⟨jI, hjmem, hj1, hj2⟩
        · -- delay on an uninitialized qubit: left untouched
          have hred : runCandidatesAux (i :: rest) start init =
              runCandidatesAux rest (start + 1) init := by
            simp [runCandidatesAux, hargs, hnd, hinit]
          rw [hred, ih]
          constructor
          · rintro ⟨m, i', q', rfl, hget, hname, hq, hcond⟩
            refine ⟨m + 1, i', q', by omega, by simpa using hget, hname, hq, ?_⟩
            rcases hcond with h | ⟨jI, hjmem, hj1, hj2⟩
            · exact Or.inl h
            · exact Or.inr ⟨jI, by simp [List.take_succ_cons, hjmem], hj1, hj2⟩
          · rintro ⟨m, i', q', rfl, hget, hname, hq, hcond⟩
            rcases m with _ | m
            · simp only [List.getElem?_cons_zero, Option.some.injEq] at hget
              subst hget
              rw [hargs] at hq
              obtain rfl : q0 = q' := by
                injection hq
              rcases hcond with h | ⟨jI, hjmem, hj1, hj2⟩
              · exact absurd h hinit
              · simp at hjmem
            · refine ⟨m, i', q', by omega, by simpa using hget, hname, hq, ?_⟩
              rcases hcond with h | ⟨jI, hjmem, hj1, hj2⟩
              · exact Or.inl h
              · simp only [List.take_succ_cons, List.mem_cons] at hjmem
                rcases hjmem with rfl | hjmem
                · exact absurd hnd hj1
                · exact Or.inr ⟨jI, hjmem, hj1, hj2⟩
      · -- non-delay 1-qubit operation: initializes its qubit
        have hred : runCandidatesAux (i :: rest) start init =
            runCandidatesAux rest (start + 1) (q0 :: init) := by
          simp [runCandidatesAux, hargs, hnd]
        rw [hred, ih]
        constructor
        · rintro ⟨m, i', q', rfl, hget, hname, hq, hcond⟩
          refine ⟨m + 1, i', q', by omega, by simpa using hget, hname, hq, ?_⟩
          rcases hcond with h | ⟨jI, hjmem, hj1, hj2⟩
          · rcases List.mem_cons.mp h with rfl | hmem2
            · exact Or.inr ⟨i, by simp [List.take_succ_cons], hnd, hargs⟩
            · exact Or.inl hmem2
          · exact Or.inr ⟨jI, by simp [List.take_succ_cons, hjmem], hj1, hj2⟩
        · rintro ⟨m, i', q', rfl, hget, hname, hq, hcond⟩
          rcases m with _ | m
          · simp only [List.getElem?_cons_zero, Option.some.injEq] at hget
            subst hget
            exact absurd hname hnd
          · refine ⟨m, i', q', by omega, by simpa using hget, hname, hq, ?_⟩
            rcases hcond with h | ⟨jI, hjmem, hj1, hj2⟩
            · exact Or.inl (List.mem_cons_of_mem _ h)
            · simp only [List.take_succ_cons, List.mem_cons] at hjmem
              rcases hjmem with rfl | hjmem
              · rw [hargs] at hj2
                obtain rfl : q0 = q' := by
                  injection hj2
                exact Or.inl (List.mem_cons_self _ _)
              · exact Or.inr ⟨jI, hjmem, hj1, hj2⟩
    · -- two or more operands: the node is skipped without initializing
      have hred : runCandidatesAux (i :: rest) start init =
          runCandidatesAux rest (start + 1) init := by
        simp [runCandidatesAux, hargs]
      rw [hred, ih]
      constructor
      · rintro ⟨m, i', q', rfl, hget, hname, hq, hcond⟩
        refine ⟨m + 1, i', q', by omega, by simpa using hget, hname, hq, ?_⟩
        rcases hcond with h | ⟨jI, hjmem, hj1, hj2⟩
        · exact Or.inl h
        · exact Or.inr ⟨jI, by simp [List.take_succ_cons, hjmem], hj1, hj2⟩
      · rintro ⟨m, i', q', rfl, hget, hname, hq, hcond⟩
        rcases m with _ | m
        · simp only [List.getElem?_cons_zero, Option.some.injEq] at hget
          subst hget
          rw [hargs] at hq
          simp at hq
        · refine ⟨m, i', q', by omega, by simpa using hget, hname, hq, ?_⟩
          rcases hcond with h | ⟨jI, hjmem, hj1, hj2⟩
          · exact Or.inl h
          · simp only [List.take_succ_cons, List.mem_cons] at hjmem
            rcases hjmem with rfl | hjmem
            · rw [hargs] at hj2
              simp at hj2
            · exact Or.inr ⟨jI, hjmem, hj1, hj2⟩

/-- C4 counterexample: in the circuit `[cx(0,1), delay(0)]` the delay's
qubit was touched earlier by a non-delay multi-qubit operation, so the
claim marks it a candidate; the pass skips two-operand nodes before the
initialization bookkeeping, so it records no candidate. -/
theorem runCandidates_counterexample :
    specCandidate [⟨"cx", [0, 1], 0⟩, ⟨"delay", [0], 100⟩] 1 ∧
    (1 : Nat) ∉ runCandidates [⟨"cx", [0, 1], 0⟩, ⟨"delay", [0], 100⟩] ∧
    runCandidates [⟨"cx", [0, 1], 0⟩, ⟨"delay", [0], 100⟩] = [] := by
  refine ⟨⟨⟨"delay", [0], 100⟩, 0, rfl, rfl, rfl,
    ⟨"cx", [0, 1], 0⟩, by simp, by decide, by decide⟩, by decide, by decide⟩

/-- C4 amended: a delay instruction is a candidate idle window iff it is
a 1-qubit delay whose qubit is touched earlier by some non-delay
*1-qubit* operation; multi-qubit operations never initialize their
qubits, and every delay before the first such 1-qubit operation
(including all leading pre-init delays) is left untouched regardless of
T2. -/
theorem runCandidates_amended :
    ∀ (insts : List Inst) (k : Nat),
      k ∈ runCandidates insts ↔ codeCandidate insts k := by
  intro insts k
  unfold runCandidates codeCandidate
  rw [runCandidatesAux_mem]
  constructor
  · rintro ⟨m, i, q, hk, hget, hname, hq, hcond⟩
    obtain rfl : m = k := by omega
    rcases hcond with h | h
    · simp at h
    · exact ⟨i, q, hget, hname, hq, h⟩
  · rintro ⟨i, q, hget, hname, hq, jI, hjmem, hj1, hj2⟩
    exact ⟨k, i, q, by omega, hget, hname, hq, Or.inr ⟨jI, hjmem, hj1, hj2⟩⟩

/-- Witness for C4's amended theorem: after a 1-qubit `x` gate the
following delay is a candidate. -/
theorem runCandidates_amended_witness :
    (1 : Nat) ∈ runCandidates [⟨"x", [0], 0⟩, ⟨"delay", [0], 100⟩] :=
  (runCandidates_amended [⟨"x", [0], 0⟩, ⟨"delay", [0], 100⟩] 1).mpr
    ⟨⟨"delay", [0], 100⟩, 0, rfl, rfl, rfl,
     ⟨"x", [0], 0⟩, by simp, by decide, by decide⟩

/-- The stop conditions are monotone in the candidate count: the time
budget and the cumulative gate error grow with `m` while the residual
decoherence benefit `2*(1 - exp(-T/((4m+1)*T2)))` shrinks, and the hard
cap is upward closed. -/
theorem ddStop_mono (tIdle : Nat) (t2Dt e : ℝ) (d : Nat)
    (hT2 : 0 < t2Dt) (he : 0 ≤ e) :
    ∀ m m', m ≤ m' → ddStop tIdle t2Dt e d m → ddStop tIdle t2Dt e d m' := by
  intro m m' hmm h
  rcases h with h | h | h
  · left
    have hmul : m * d ≤ m' * d := Nat.mul_le_mul_right d hmm
    omega
  · right
    left
    have hcast : (m : ℝ) ≤ (m' : ℝ) := by exact_mod_cast hmm
    have h1 : (m : ℝ) * e ≤ (m' : ℝ) * e := mul_le_mul_of_nonneg_right hcast he
    have h2 : Real.exp (-(tIdle : ℝ) / ((4 * (m : ℝ) + 1) * t2Dt)) ≤
        Real.exp (-(tIdle : ℝ) / ((4 * (m' : ℝ) + 1) * t2Dt)) := by
      rw [Real.exp_le_exp]
      rw [neg_div, neg_div, neg_le_neg_iff]
      refine div_le_div_of_nonneg_left (Nat.cast_nonneg tIdle) ?_ ?_
      · positivity
      · have : (4 * (m : ℝ) + 1) ≤ 4 * (m' : ℝ) + 1 := by linarith
        exact mul_le_mul_of_nonneg_right this (le_of_lt hT2)
    linarith
  · right
    right
    omega

/-- Four fuel steps are exhaustive for the search loop: the returned
value is a multiple of `L`, is either `0` or an accepted (non-stopping)
count, and its successor candidate fires a stop condition — i.e. the
loop exits through a stop condition, never through fuel exhaustion. -/
theorem ddLoop_spec (stop : Nat → Prop) [DecidablePred stop] (L : Nat)
    (hL : 1 ≤ L) (hcap : ∀ m, 2 < m → stop m) :
    L ∣ ddLoop stop L 4 0 ∧
    (ddLoop stop L 4 0 = 0 ∨ ¬ stop (ddLoop stop L 4 0)) ∧
    stop (ddLoop stop L 4 0 + L) := by
  simp only [ddLoop]
  split_ifs with h1 h2 h3 h4
  · exact ⟨dvd_zero L, Or.inl rfl, by simpa using h1⟩
  · refine ⟨⟨1, by ring⟩, Or.inr (by simpa using h1), by simpa using h2⟩
  · refine ⟨⟨2, by ring⟩, Or.inr (by simpa using h2), by simpa using h3⟩
  · refine ⟨⟨3, by ring⟩, Or.inr (by simpa using h3), by simpa using h4⟩
  · exact absurd (hcap (0 + L + L + L + L) (by omega)) h4

/-- C3: when the window's decoherence-exposure ratio meets the
configured minimum and a native pi-pulse calibration is available, the
pulse count is the greatest positive multiple of the base sequence
length at which no stop condition fires (time budget, gate-error versus
residual-decoherence comparison, hard cap), and the window is left
unmodified (`None`) exactly when every such candidate fires a stop
condition — in particular when the very first one does. -/
theorem calculateDdPulses_greatest (tIdle : Nat) (t2Dt thr e : ℝ) (d L : Nat)
    (hT2 : 0 < t2Dt) (he : 0 ≤ e) (hL : 1 ≤ L)
    (hthr : thr ≤ 1 - Real.exp (-(tIdle : ℝ) / t2Dt)) :
    match calculateDdPulses tIdle t2Dt thr (some (d, e)) L with
    | some n => (0 < n ∧ L ∣ n ∧ ¬ ddStop tIdle t2Dt e d n) ∧
        ∀ m, L ∣ m → ¬ ddStop tIdle t2Dt e d m → m ≤ n
    | none => ∀ m, 0 < m → L ∣ m → ddStop tIdle t2Dt e d m := by
  have hcap : ∀ m, 2 < m → ddStop tIdle t2Dt e d m := fun m hm =>
    Or.inr (Or.inr hm)
  obtain ⟨hdvd, hok, hstopnext⟩ :=
    ddLoop_spec (ddStop tIdle t2Dt e d) L hL hcap
  have hnotlt : ¬ (1 - Real.exp (-(tIdle : ℝ) / t2Dt) < thr) := not_lt.mpr hthr
  have hval : calculateDdPulses tIdle t2Dt thr (some (d, e)) L =
      if 0 < ddLoop (ddStop tIdle t2Dt e d) L 4 0 then
        some (ddLoop (ddStop tIdle t2Dt e d) L 4 0)
      else none := by
    unfold calculateDdPulses
    rw [if_neg hnotlt]
  rw [hval]
  by_cases hpos : 0 < ddLoop (ddStop tIdle t2Dt e d) L 4 0
  · rw [if_pos hpos]
    have hns : ¬ ddStop tIdle t2Dt e d (ddLoop (ddStop tIdle t2Dt e d) L 4 0) := by
      rcases hok with h0 | hns
      · omega
      · exact hns
    refine ⟨⟨hpos, hdvd, hns⟩, ?_⟩
    intro m hm hmns
    by_contra hgt
    push_neg at hgt
    obtain ⟨a, ha⟩ := hm
    obtain ⟨b, hb⟩ := hdvd
    have hab : b < a := by
      by_contra hba
      push_neg at hba
      have := Nat.mul_le_mul_left L hba
      omega
    have hstep : ddLoop (ddStop tIdle t2Dt e d) L 4 0 + L ≤ m := by
      have h1 : L * (b + 1) ≤ L * a := Nat.mul_le_mul_left L hab
      have h2 : L * (b + 1) = L * b + L := by ring
      omega
    exact hmns (ddStop_mono tIdle t2Dt e d hT2 he _ _ hstep hstopnext)
  · rw [if_neg hpos]
    have hzero : ddLoop (ddStop tIdle t2Dt e d) L 4 0 = 0 := by omega
    rw [hzero, Nat.zero_add] at hstopnext
    intro m hm hmdvd
    obtain ⟨a, rfl⟩ := hmdvd
    have hLa : L ≤ L * a := by
      have ha : 1 ≤ a := by
        rcases Nat.eq_zero_or_pos a with rfl | h
        · omega
        · exact h
      calc L = L * 1 := by ring
      _ ≤ L * a := Nat.mul_le_mul_left L ha
    exact ddStop_mono tIdle t2Dt e d hT2 he _ _ hLa hstopnext

/-- Witness for C3 at `T_idle = 100`, `T2_dt = 100`, threshold `0`,
pulse duration `10`, pulse error `0`, base sequence length `2`. -/
theorem calculateDdPulses_greatest_witness :
    ((0 : ℝ) < 100 ∧ (0 : ℝ) ≤ 0 ∧ (1 : Nat) ≤ 2 ∧
      (0 : ℝ) ≤ 1 - Real.exp (-(100 : ℝ) / 100)) ∧
    (match calculateDdPulses 100 100 0 (some (10, 0)) 2 with
     | some n => (0 < n ∧ 2 ∣ n ∧ ¬ ddStop 100 100 0 10 n) ∧
         ∀ m, 2 ∣ m → ¬ ddStop 100 100 0 10 m → m ≤ n
     | none => ∀ m, 0 < m → 2 ∣ m → ddStop 100 100 0 10 m) :=
  ⟨⟨by norm_num, le_refl 0, by norm_num,
    by
      have h : Real.exp (-(100 : ℝ) / 100) ≤ 1 :=
        Real.exp_le_one_iff.mpr (by norm_num)
      linarith⟩,
   calculateDdPulses_greatest 100 100 0 0 10 2 (by norm_num) (le_refl 0)
     (by norm_num)
     (by
       have h : Real.exp (-(100 : ℝ) / 100) ≤ 1 :=
         Real.exp_le_one_iff.mpr (by norm_num)
       linarith)⟩

end AEM
